import Mathlib

/-!
Verification of the slo-generator backend layer.

Shallow embedding of:
- slo_generator/backends/cloudwatch.py (CloudwatchBackend.good_bad_ratio, get_query_body)
- slo_generator/backends/stackdriver_service_monitoring.py
  (build_slo, build_service, build_service_id, build_slo_id, delete_slo, count, compare_slo)
- slo_generator/utils.py (parse_config env-var substitution, str2bool)

Python dictionaries holding configuration are embedded as Lean structures whose
optional keys are Option fields; Python truthiness of a value stored under a key
is modelled explicitly where the code branches on it.  Provider clients are
passed in as functions, and raised exceptions become Except error values.
-/

namespace SloGen

/-! ## Cloudwatch backend (cloudwatch.py) -/

/-- A Cloudwatch metric descriptor dict: keys namespace, name, dimensions. -/
structure CwMetric where
  namespc : String
  name : String
  dimensions : List (String × String)
deriving DecidableEq

/-- A Python value stored under a measurement key: either a (non-empty, hence
truthy) metric descriptor dict, or an empty (falsy) dict. -/
inductive CwVal where
  | metric (m : CwMetric)
  | emptyDict
deriving DecidableEq

/-- slo_config.backend.measurement for the Cloudwatch backend.
query_good is read with measurement['query_good'] (KeyError when absent);
query_bad and query_valid are read with .get (None when absent). -/
structure CwMeasurement where
  query_good : Option CwVal
  query_bad : Option CwVal
  query_valid : Option CwVal
deriving DecidableEq

/-- Exceptions the embedded good_bad_ratio can raise: KeyError on a missing
dict key, and the raise Exception("Oneof query_bad or query_valid ...") path. -/
inductive CwError where
  | keyError (key : String)
  | oneofRequired
deriving DecidableEq

/-- One entry of the MetricDataQueries list sent to get_metric_data: either a
MetricStat query body (built by get_query_body) or an Expression entry. -/
inductive CwQueryItem where
  | metricStat (id : String) (metric : CwMetric) (period : Int) (stat : String) (unit : String)
  | expression (id : String) (expr : String) (label : String)
deriving DecidableEq

/-- A raw AWS get_metric_data response object, keeping the request envelope it
answers; used to show good_bad_ratio hands this object back unchanged. -/
inductive CwResponse where
  | apiResponse (queries : List CwQueryItem) (startTime endTime : Int)
deriving DecidableEq

namespace CloudwatchBackend

/-- get_query_body(id, metric, stat, window): builds the MetricStat query dict.
Reading metric['namespace'] on an empty dict raises KeyError. -/
def get_query_body (id : String) (v : CwVal) (stat : String) (window : Int) :
    Except CwError CwQueryItem :=
  match v with
  | CwVal.metric m => Except.ok (CwQueryItem.metricStat id m window stat "Count")
  | CwVal.emptyDict => Except.error (CwError.keyError "namespc")

/-- Python truthiness of measurement.get(key): a non-empty metric dict is
truthy, an absent key (None) or an empty dict is falsy. -/
def truthyMetric : Option CwVal → Option CwVal
  | some (CwVal.metric m) => some (CwVal.metric m)
  | _ => none

/-- CloudwatchBackend.good_bad_ratio(timestamp, window, slo_config).
The provider client (self.client.get_metric_data) is passed in as a function of
the query list, start time and end time; whatever it returns is the result. -/
def good_bad_ratio {R : Type} (client : List CwQueryItem → Int → Int → R)
    (timestamp window : Int) (measurement : CwMeasurement) : Except CwError R :=
  match measurement.query_good with
  | none => Except.error (CwError.keyError "query_good")
  | some qg =>
    match get_query_body "good" qg "Sum" window with
    | Except.error e => Except.error e
    | Except.ok json_good =>
      match truthyMetric measurement.query_bad with
      | some qb =>
        match get_query_body "bad" qb "Sum" window with
        | Except.error e => Except.error e
        | Except.ok json_bad =>
          let json_ratio := CwQueryItem.expression "sli_value" "good / (good + bad)" "SLI"
          Except.ok (client [json_ratio, json_good, json_bad] (timestamp - window) timestamp)
      | none =>
        match truthyMetric measurement.query_valid with
        | some qv =>
          match get_query_body "valid" qv "Sum" window with
          | Except.error e => Except.error e
          | Except.ok json_valid =>
            let json_ratio := CwQueryItem.expression "sli_value" "good / valid" "SLI"
            Except.ok (client [json_ratio, json_good, json_valid] (timestamp - window) timestamp)
        | none => Except.error CwError.oneofRequired

end CloudwatchBackend

/-- A sample good-events metric descriptor. -/
def mGood : CwMetric :=
  { namespc := "AWS/ApplicationELB", name := "RequestCount",
    dimensions := [("LoadBalancer", "app/my-lb")] }

/-- A sample bad-events metric descriptor. -/
def mBad : CwMetric :=
  { namespc := "AWS/ApplicationELB", name := "HTTPCode_Target_5XX_Count",
    dimensions := [("LoadBalancer", "app/my-lb")] }

/-- C1: on a well-formed good/bad configuration, CloudwatchBackend.good_bad_ratio
returns the raw get_metric_data provider response object unchanged (here the
full response envelope for the three-entry query at timestamps 900..1000), not
a (good_event_count, bad_event_count) pair of raw counts, contradicting its own
docstring which promises such a tuple. -/
theorem cloudwatch_good_bad_ratio_returns_raw_response :
    CloudwatchBackend.good_bad_ratio CwResponse.apiResponse 1000 100
      { query_good := some (CwVal.metric mGood),
        query_bad := some (CwVal.metric mBad),
        query_valid := none }
    = Except.ok (CwResponse.apiResponse
        [CwQueryItem.expression "sli_value" "good / (good + bad)" "SLI",
         CwQueryItem.metricStat "good" mGood 100 "Sum" "Count",
         CwQueryItem.metricStat "bad" mBad 100 "Sum" "Count"]
        900 1000) := rfl

/-- C3 counterexample: a measurement whose query_bad key is present (bound to an
empty, falsy dict) and whose query_valid key is absent still raises the
missing-field error, so "raises if and only if both query_bad and query_valid
are absent" is false: presence of a falsy query_bad does not prevent the error. -/
theorem cloudwatch_oneof_error_counterexample :
    (CloudwatchBackend.good_bad_ratio CwResponse.apiResponse 1000 100
      { query_good := some (CwVal.metric mGood),
        query_bad := some CwVal.emptyDict,
        query_valid := none }
      = Except.error CwError.oneofRequired)
    ∧ (some CwVal.emptyDict ≠ (none : Option CwVal)) := by
  exact ⟨rfl, by decide⟩

/-- C3 amended: for a measurement whose query_good holds a metric dict, the
missing-field error is raised if and only if neither query_bad nor query_valid
holds a truthy (non-empty) value; when at least one of them is truthy no
missing-field error is raised. -/
theorem cloudwatch_oneof_error_iff {R : Type} (client : List CwQueryItem → Int → Int → R)
    (timestamp window : Int) (m : CwMeasurement) (qg : CwMetric)
    (hg : m.query_good = some (CwVal.metric qg)) :
    CloudwatchBackend.good_bad_ratio client timestamp window m
        = Except.error CwError.oneofRequired
      ↔ CloudwatchBackend.truthyMetric m.query_bad = none
        ∧ CloudwatchBackend.truthyMetric m.query_valid = none := by
  unfold CloudwatchBackend.good_bad_ratio
  rw [hg]
  cases hb : CloudwatchBackend.truthyMetric m.query_bad with
  | some qb =>
    cases qb with
    | metric mb => simp [CloudwatchBackend.get_query_body]
    | emptyDict =>
      exfalso
      unfold CloudwatchBackend.truthyMetric at hb
      split at hb <;> simp_all
  | none =>
    cases hv : CloudwatchBackend.truthyMetric m.query_valid with
    | some qv =>
      cases qv with
      | metric mv => simp [CloudwatchBackend.get_query_body]
      | emptyDict =>
        exfalso
        unfold CloudwatchBackend.truthyMetric at hv
        split at hv <;> simp_all
    | none => simp [CloudwatchBackend.get_query_body]

/-- C3 amended witness: concrete evaluation of the iff at a measurement with a
truthy query_bad. -/
theorem cloudwatch_oneof_error_iff_witness :
    CloudwatchBackend.good_bad_ratio CwResponse.apiResponse 50 10
        { query_good := some (CwVal.metric mGood),
          query_bad := some (CwVal.metric mBad),
          query_valid := none }
        = Except.error CwError.oneofRequired
      ↔ CloudwatchBackend.truthyMetric (some (CwVal.metric mBad)) = none
        ∧ CloudwatchBackend.truthyMetric (none : Option CwVal) = none :=
  cloudwatch_oneof_error_iff CwResponse.apiResponse 50 10
    { query_good := some (CwVal.metric mGood),
      query_bad := some (CwVal.metric mBad),
      query_valid := none } mGood rfl

/-! ## Stackdriver Service Monitoring backend (stackdriver_service_monitoring.py) -/

/-- backend.app_engine block; SID_GAE formats it. -/
structure GaeCfg where
  project_id : String
  module_id : String
deriving DecidableEq

/-- backend.cluster_istio block; SID_CLUSTER_ISTIO formats it. -/
structure ClusterIstioCfg where
  project_id : String
  location : String
  cluster_name : String
  service_namespace : String
  service_name : String
deriving DecidableEq

/-- backend.mesh_istio block; SID_MESH_ISTIO formats it. -/
structure MeshIstioCfg where
  project_id : String
  mesh_uid : String
  service_namespace : String
  service_name : String
deriving DecidableEq

/-- backend.cloud_endpoints block; SID_CLOUD_ENDPOINT formats it. -/
structure CloudEndpointsCfg where
  project_id : String
  service : String
deriving DecidableEq

/-- backend.measurement for the Service Monitoring backend.  Defaults mirror
the .get fallbacks in build_slo; range_max and the windows filter are read
without a default (range_max via measurement['range_max'], a KeyError when
absent; filter via .get, None when absent). latency.threshold is the optional
measurement.latency.threshold number (an int; int(threshold) is the identity
on it). -/
structure SsmMeasurement where
  filter_valid : String := ""
  filter_good : String := ""
  filter_bad : String := ""
  range_min : ℚ := 0
  range_max : Option ℚ := none
  method : List String := []
  location : List String := []
  version : List String := []
  latency_threshold : Option Int := none
  filter : Option String := none
deriving DecidableEq

/-- An slo_config as consumed by the Service Monitoring backend, with the
backend.* keys inlined.  Option fields model keys that may be absent; for the
four provider-service blocks, some models a present (non-empty, truthy) dict. -/
structure SsmSloConfig where
  service_name : String
  feature_name : String
  slo_name : String
  slo_description : String
  slo_target : ℚ
  slo_id : Option String := none
  method : String
  project_id : String
  measurement : SsmMeasurement := {}
  app_engine : Option GaeCfg := none
  cluster_istio : Option ClusterIstioCfg := none
  mesh_istio : Option MeshIstioCfg := none
  cloud_endpoints : Option CloudEndpointsCfg := none
  service_display_name : Option String := none
deriving DecidableEq

/-- Exceptions raised by the embedded Service Monitoring backend code paths. -/
inductive SsmError where
  | unsupportedMethod (method : String)
  | keyError (key : String)
  | indexError
deriving DecidableEq

/-- The service_level_indicator object of a built SLO. -/
inductive SsmSli where
  | basicSli (method location version : List String)
      (latencyNanos : Option Int) (availability : Bool)
  | goodTotalRatio (good_service_filter bad_service_filter total_service_filter : Option String)
  | distributionCut (distribution_filter : String) (range_min : Option ℚ) (range_max : ℚ)
  | windowsBased (window_period : Nat) (good_bad_metric_filter : Option String)
deriving DecidableEq

/-- The SLO JSON object produced by build_slo. -/
structure SsmSlo where
  display_name : String
  goal : ℚ
  rolling_period_seconds : Nat
  service_level_indicator : SsmSli
deriving DecidableEq

/-- The Service JSON object produced by build_service. -/
structure SsmService where
  display_name : String
  custom : Bool
deriving DecidableEq

/-- Exceptions of the Service Monitoring API client:
google.api_core.exceptions.NotFound versus anything else. -/
inductive ApiError where
  | notFound
  | serverError (msg : String)
deriving DecidableEq

namespace StackdriverServiceMonitoringBackend

/-- build_service_id(slo_config, full): picks the system service id from the
first present provider block (app_engine, cluster_istio, mesh_istio,
cloud_endpoints, in that order), else service_name-feature_name, and prefixes
the project path when full=True. -/
def build_service_id (cfg : SsmSloConfig) (full : Bool) : String :=
  let service_id :=
    match cfg.app_engine with
    | some a => "gae:" ++ a.project_id ++ "_" ++ a.module_id
    | none =>
      match cfg.cluster_istio with
      | some c => "ist:" ++ c.project_id ++ "-zone-" ++ c.location ++ "-" ++ c.cluster_name
          ++ "-" ++ c.service_namespace ++ "-" ++ c.service_name
      | none =>
        match cfg.mesh_istio with
        | some m => "ist:" ++ m.project_id ++ "-" ++ m.mesh_uid ++ "-" ++ m.service_namespace
            ++ "-" ++ m.service_name
        | none =>
          match cfg.cloud_endpoints with
          | some e => "ist:" ++ e.project_id ++ "-" ++ e.service
          | none => cfg.service_name ++ "-" ++ cfg.feature_name
  if full then "projects/" ++ cfg.project_id ++ "/services/" ++ service_id
  else service_id

/-- build_service(slo_config): a custom service for every non-basic method,
and raise Exception('Method basic is not supported.') for method basic. -/
def build_service (cfg : SsmSloConfig) : Except SsmError SsmService :=
  let service_id := build_service_id cfg false
  let display_name := cfg.service_display_name.getD service_id
  if cfg.method ≠ "basic" then Except.ok { display_name := display_name, custom := true }
  else Except.error (SsmError.unsupportedMethod cfg.method)

/-- The basic_sli latency field: threshold truthy (present and non-zero) gives
a Duration of int(threshold) milliseconds expressed in nanos, else None. -/
def latencyField : Option Int → Option Int
  | some t => if t = 0 then none else some (t * 1000000)
  | none => none

/-- The base slo dict of build_slo (display_name, goal, rolling_period) with
the branch-specific service_level_indicator attached. -/
def mkSlo (display_name : String) (goal : ℚ) (window : Nat) (sli : SsmSli) : SsmSlo :=
  { display_name := display_name, goal := goal, rolling_period_seconds := window,
    service_level_indicator := sli }

/-- build_slo(window, slo_config): the SLO JSON representation, dispatching on
backend.method; any method outside basic / good_bad_ratio / distribution_cut /
windows raises Exception('Method ... is not supported.'). -/
def build_slo (window : Nat) (cfg : SsmSloConfig) : Except SsmError SsmSlo :=
  let m := cfg.measurement
  let minutes := window / 60
  let hours := minutes / 60
  let display_name := cfg.slo_description ++ " (" ++ toString hours ++ "h)"
  if cfg.method = "basic" then
    Except.ok (mkSlo display_name cfg.slo_target window
      (SsmSli.basicSli m.method m.location m.version
        (latencyField m.latency_threshold) (latencyField m.latency_threshold).isNone))
  else if cfg.method = "good_bad_ratio" then
    Except.ok (mkSlo display_name cfg.slo_target window
      (SsmSli.goodTotalRatio
        (if m.filter_good ≠ "" then some m.filter_good else none)
        (if m.filter_bad ≠ "" then some m.filter_bad else none)
        (if m.filter_valid ≠ "" then some m.filter_valid else none)))
  else if cfg.method = "distribution_cut" then
    match m.range_max with
    | none => Except.error (SsmError.keyError "range_max")
    | some mx =>
      Except.ok (mkSlo display_name cfg.slo_target window
        (SsmSli.distributionCut m.filter_valid
          (if m.range_min ≠ 0 then some m.range_min else none) mx))
  else if cfg.method = "windows" then
    Except.ok (mkSlo display_name cfg.slo_target window
      (SsmSli.windowsBased window m.filter))
  else Except.error (SsmError.unsupportedMethod cfg.method)

/-- build_slo_id(window, slo_config, full): slo_id override or slo_name, dashed
with the window, optionally under the full service resource path. -/
def build_slo_id (window : Nat) (cfg : SsmSloConfig) (full : Bool) : String :=
  let service_id := build_service_id cfg false
  let slo_id :=
    match cfg.slo_id with
    | some sid => sid ++ "-" ++ toString window
    | none => cfg.slo_name ++ "-" ++ toString window
  if full then "projects/" ++ cfg.project_id ++ "/services/" ++ service_id
      ++ "/serviceLevelObjectives/" ++ slo_id
  else slo_id

/-- delete_slo(window, slo_config): call the API delete with the full SLO id;
a NotFound exception is caught, logged as a warning and turned into None; any
other exception propagates. -/
def delete_slo {R : Type} (deleteApi : String → Except ApiError R)
    (window : Nat) (cfg : SsmSloConfig) : Except ApiError (Option R) :=
  match deleteApi (build_slo_id window cfg true) with
  | Except.ok resp => Except.ok (some resp)
  | Except.error ApiError.notFound => Except.ok none
  | Except.error e => Except.error e

end StackdriverServiceMonitoringBackend

/-- A well-formed base slo_config for the Service Monitoring backend. -/
def cfgBase : SsmSloConfig :=
  { service_name := "svc", feature_name := "feat", slo_name := "lat",
    slo_description := "Latency SLO", slo_target := 99 / 100,
    method := "good_bad_ratio", project_id := "proj-a" }

/-- C4 counterexample: of the claimed closed method set, query_sli and window
are rejected by build_slo, and basic is rejected by build_service, while the
method string windows (outside the claimed set) is accepted by build_slo; so
the claimed set is wrong in both directions. -/
theorem build_slo_method_set_counterexample :
    (StackdriverServiceMonitoringBackend.build_slo 3600
        { cfgBase with method := "query_sli" }).isOk = false
    ∧ (StackdriverServiceMonitoringBackend.build_slo 3600
        { cfgBase with method := "window" }).isOk = false
    ∧ (StackdriverServiceMonitoringBackend.build_service
        { cfgBase with method := "basic" }).isOk = false
    ∧ (StackdriverServiceMonitoringBackend.build_slo 3600
        { cfgBase with method := "windows" }).isOk = true := by
  decide

/-- C4 amended: provided range_max is present in the measurement, build_slo
succeeds exactly for the method set basic / good_bad_ratio / distribution_cut /
windows, and build_service succeeds exactly for methods other than basic; both
fail with the unsupported-method (or missing-key) error otherwise. -/
theorem build_slo_method_set (window : Nat) (cfg : SsmSloConfig)
    (h : cfg.measurement.range_max ≠ none) :
    ((StackdriverServiceMonitoringBackend.build_slo window cfg).isOk = true
        ↔ cfg.method ∈ ["basic", "good_bad_ratio", "distribution_cut", "windows"])
    ∧ ((StackdriverServiceMonitoringBackend.build_service cfg).isOk = true
        ↔ cfg.method ≠ "basic") := by
  obtain ⟨mx, hmx⟩ := Option.ne_none_iff_exists'.mp h
  constructor
  · unfold StackdriverServiceMonitoringBackend.build_slo
    by_cases h1 : cfg.method = "basic"
    · simp [h1, Except.isOk, Except.toBool]
    by_cases h2 : cfg.method = "good_bad_ratio"
    · simp [h1, h2, Except.isOk, Except.toBool]
    by_cases h3 : cfg.method = "distribution_cut"
    · simp [h1, h2, h3, hmx, Except.isOk, Except.toBool]
    by_cases h4 : cfg.method = "windows"
    · simp [h1, h2, h3, h4, Except.isOk, Except.toBool]
    · simp [h1, h2, h3, h4, Except.isOk, Except.toBool]
  · unfold StackdriverServiceMonitoringBackend.build_service
    by_cases h1 : cfg.method = "basic" <;> simp [h1, Except.isOk, Except.toBool]

/-- C4 amended witness: the method-set characterization evaluated at the base
configuration (method good_bad_ratio) with a present range_max. -/
theorem build_slo_method_set_witness :
    ((StackdriverServiceMonitoringBackend.build_slo 3600
        { cfgBase with measurement := { range_max := some 1 } }).isOk = true
      ↔ ({ cfgBase with measurement := { range_max := some 1 }} : SsmSloConfig).method
          ∈ ["basic", "good_bad_ratio", "distribution_cut", "windows"])
    ∧ ((StackdriverServiceMonitoringBackend.build_service
        { cfgBase with measurement := { range_max := some 1 } }).isOk = true
      ↔ ({ cfgBase with measurement := { range_max := some 1 }} : SsmSloConfig).method
          ≠ "basic") :=
  build_slo_method_set 3600 { cfgBase with measurement := { range_max := some 1 } }
    (by decide)

/-- C5 counterexample: deleting an SLO that does not exist in the provider
(the API delete raises NotFound) returns None and reports success, instead of
failing with a backend error surfaced to the caller. -/
theorem delete_slo_not_found_counterexample :
    (StackdriverServiceMonitoringBackend.delete_slo (R := Unit)
        (fun _ => Except.error ApiError.notFound) 3600 cfgBase
      = Except.ok none)
    ∧ (StackdriverServiceMonitoringBackend.delete_slo (R := Unit)
        (fun _ => Except.error ApiError.notFound) 3600 cfgBase).isOk = true := by
  exact ⟨rfl, rfl⟩

/-- C5 amended: whenever the provider delete call raises NotFound for the SLO
id built from the configuration, delete_slo swallows the error and returns
None (a silent success); it does not surface any error to the caller. -/
theorem delete_slo_not_found_skips {R : Type} (deleteApi : String → Except ApiError R)
    (window : Nat) (cfg : SsmSloConfig)
    (h : deleteApi (StackdriverServiceMonitoringBackend.build_slo_id window cfg true)
      = Except.error ApiError.notFound) :
    StackdriverServiceMonitoringBackend.delete_slo deleteApi window cfg
      = Except.ok none := by
  unfold StackdriverServiceMonitoringBackend.delete_slo
  rw [h]

/-- C5 amended witness: concrete not-found delete returning None. -/
theorem delete_slo_not_found_skips_witness :
    StackdriverServiceMonitoringBackend.delete_slo (R := Unit)
        (fun _ => Except.error ApiError.notFound) 30
        { cfgBase with slo_name := "avail" }
      = Except.ok none :=
  delete_slo_not_found_skips (fun _ => Except.error ApiError.notFound) 30
    { cfgBase with slo_name := "avail" } rfl

/-- C6 counterexample: two configurations that agree on the identity keys
service_name, feature_name, slo_name and the window, and that have no slo_id
override and no provider service block, still route delete/update to different
remote SLOs when their project_id differs; moreover the full resource id is not
the short id merely prefixed by projects/project_id/services/service_id: the
segment serviceLevelObjectives/ sits in between. -/
theorem build_slo_id_counterexample :
    (cfgBase.service_name = ({ cfgBase with project_id := "proj-b" } : SsmSloConfig).service_name
      ∧ cfgBase.feature_name = ({ cfgBase with project_id := "proj-b" } : SsmSloConfig).feature_name
      ∧ cfgBase.slo_name = ({ cfgBase with project_id := "proj-b" } : SsmSloConfig).slo_name)
    ∧ StackdriverServiceMonitoringBackend.build_slo_id 30 cfgBase false
      = StackdriverServiceMonitoringBackend.build_slo_id 30
          { cfgBase with project_id := "proj-b" } false
    ∧ StackdriverServiceMonitoringBackend.build_slo_id 30 cfgBase true
      ≠ StackdriverServiceMonitoringBackend.build_slo_id 30
          { cfgBase with project_id := "proj-b" } true
    ∧ StackdriverServiceMonitoringBackend.build_slo_id 30 cfgBase true
      ≠ "projects/proj-a/services/svc-feat" ++ "lat-30" := by
  decide

/-- C6 amended: without an slo_id override and without provider service blocks,
the short SLO id is slo_name-window, the service id is
service_name-feature_name, and the full resource id is
projects/project_id/services/service_name-feature_name/serviceLevelObjectives/slo_name-window;
hence delete/update routing is determined by project_id together with the
identity keys and the window. -/
theorem build_slo_id_formula (window : Nat) (cfg : SsmSloConfig)
    (h1 : cfg.slo_id = none) (h2 : cfg.app_engine = none)
    (h3 : cfg.cluster_istio = none) (h4 : cfg.mesh_istio = none)
    (h5 : cfg.cloud_endpoints = none) :
    StackdriverServiceMonitoringBackend.build_slo_id window cfg false
      = cfg.slo_name ++ "-" ++ toString window
    ∧ StackdriverServiceMonitoringBackend.build_service_id cfg false
      = cfg.service_name ++ "-" ++ cfg.feature_name
    ∧ StackdriverServiceMonitoringBackend.build_slo_id window cfg true
      = "projects/" ++ cfg.project_id ++ "/services/" ++ cfg.service_name ++ "-"
        ++ cfg.feature_name ++ "/serviceLevelObjectives/" ++ cfg.slo_name ++ "-"
        ++ toString window := by
  unfold StackdriverServiceMonitoringBackend.build_slo_id
    StackdriverServiceMonitoringBackend.build_service_id
  rw [h1, h2, h3, h4, h5]
  refine ⟨rfl, rfl, ?_⟩
  simp [String.append_assoc]

/-- C6 amended witness: the id formulas evaluated at the base configuration. -/
theorem build_slo_id_formula_witness :
    StackdriverServiceMonitoringBackend.build_slo_id 30 cfgBase false
      = cfgBase.slo_name ++ "-" ++ toString 30
    ∧ StackdriverServiceMonitoringBackend.build_service_id cfgBase false
      = cfgBase.service_name ++ "-" ++ cfgBase.feature_name
    ∧ StackdriverServiceMonitoringBackend.build_slo_id 30 cfgBase true
      = "projects/" ++ cfgBase.project_id ++ "/services/" ++ cfgBase.service_name ++ "-"
        ++ cfgBase.feature_name ++ "/serviceLevelObjectives/" ++ cfgBase.slo_name ++ "-"
        ++ toString 30 :=
  build_slo_id_formula 30 cfgBase rfl rfl rfl rfl rfl

/-- A timeserie of the Stackdriver Monitoring query response, reduced to what
count reads: metric.labels['event_type'] (protobuf maps default to "" for a
missing label) and the list of point values (points[0].value.double_value is
an IndexError on an empty points list). -/
structure TimeSerie where
  event_type : String
  points : List ℚ
deriving DecidableEq

namespace StackdriverServiceMonitoringBackend

/-- One iteration of the count loop: read the first point of the timeserie and
overwrite the bad or good slot according to the event_type label. -/
def countStep (acc : ℚ × ℚ) (ts : TimeSerie) : Except SsmError (ℚ × ℚ) :=
  match ts.points with
  | [] => Except.error SsmError.indexError
  | v :: _ =>
    if ts.event_type = "bad" then Except.ok (acc.1, v)
    else if ts.event_type = "good" then Except.ok (v, acc.2)
    else Except.ok acc

/-- StackdriverServiceMonitoringBackend.count(timeseries): fold the loop over
the list starting from good_event_count = 0, bad_event_count = 0. -/
def count (timeseries : List TimeSerie) : Except SsmError (ℚ × ℚ) :=
  timeseries.foldlM countStep (0, 0)

/-- Specification value: the first-point value of the last timeserie carrying
the given event_type, or the default when there is none. -/
def lastVal (e : String) : List TimeSerie → ℚ → ℚ
  | [], d => d
  | ts :: rest, d =>
    if ts.event_type = e then lastVal e rest (ts.points.headD 0)
    else lastVal e rest d

theorem count_loop_spec (l : List TimeSerie) (h : ∀ ts ∈ l, ts.points ≠ [])
    (g b : ℚ) : l.foldlM countStep (g, b) = Except.ok (lastVal "good" l g, lastVal "bad" l b) := by
  induction l generalizing g b with
  | nil => rfl
  | cons ts rest ih =>
    have hts := h ts (by simp)
    have hrest : ∀ u ∈ rest, u.points ≠ [] := fun u hu => h u (by simp [hu])
    obtain ⟨v, vs, hv⟩ : ∃ v vs, ts.points = v :: vs := by
      cases hp : ts.points with
      | nil => exact absurd hp hts
      | cons v vs => exact ⟨v, vs, rfl⟩
    rw [List.foldlM_cons]
    by_cases hb : ts.event_type = "bad"
    · have : countStep (g, b) ts = Except.ok (g, v) := by
        simp [countStep, hv, hb]
      rw [this]
      show rest.foldlM countStep (g, v) = _
      rw [ih hrest]
      simp [lastVal, hb, hv]
    · by_cases hgd : ts.event_type = "good"
      · have : countStep (g, b) ts = Except.ok (v, b) := by
          simp [countStep, hv, hb, hgd]
        rw [this]
        show rest.foldlM countStep (v, b) = _
        rw [ih hrest]
        simp [lastVal, hb, hgd, hv]
      · have : countStep (g, b) ts = Except.ok (g, b) := by
          simp [countStep, hv, hb, hgd]
        rw [this]
        show rest.foldlM countStep (g, b) = _
        rw [ih hrest]
        simp [lastVal, hb, hgd]

end StackdriverServiceMonitoringBackend

/-- C9: when every timeserie has at least one point, count returns the pair
whose good (resp. bad) component is the first-point value of the last timeserie
in list order labelled good (resp. bad), 0 when there is none; the empty list
gives (0, 0) and repeated labels overwrite instead of summing. -/
theorem count_returns_last_good_bad (l : List TimeSerie)
    (h : ∀ ts ∈ l, ts.points ≠ []) :
    StackdriverServiceMonitoringBackend.count l
      = Except.ok (StackdriverServiceMonitoringBackend.lastVal "good" l 0,
                   StackdriverServiceMonitoringBackend.lastVal "bad" l 0) :=
  StackdriverServiceMonitoringBackend.count_loop_spec l h 0 0

/-- C9 witness: a list with two good timeseries and one bad one; the later good
value 5 overwrites the earlier 2 rather than being summed. -/
theorem count_returns_last_good_bad_witness :
    StackdriverServiceMonitoringBackend.count
        [{ event_type := "good", points := [2] },
         { event_type := "bad", points := [3] },
         { event_type := "good", points := [5] }]
      = Except.ok
          (StackdriverServiceMonitoringBackend.lastVal "good"
            [{ event_type := "good", points := [2] },
             { event_type := "bad", points := [3] },
             { event_type := "good", points := [5] }] 0,
           StackdriverServiceMonitoringBackend.lastVal "bad"
            [{ event_type := "good", points := [2] },
             { event_type := "bad", points := [3] },
             { event_type := "good", points := [5] }] 0) :=
  count_returns_last_good_bad _ (by decide)

namespace StackdriverServiceMonitoringBackend

/-- Insert an entry into an assoc list sorted by key (json.dumps sort_keys). -/
def insertByKey {V : Type} (kv : String × V) : List (String × V) → List (String × V)
  | [] => [kv]
  | h :: t => if h.1 < kv.1 then h :: insertByKey kv t else kv :: h :: t

/-- Sort an assoc list by key, modelling json.dumps(..., sort_keys=True). -/
def sortByKey {V : Type} (d : List (String × V)) : List (String × V) :=
  d.foldr insertByKey []

/-- The canonicalization compare_slo applies to each argument before
serializing: drop the excluded key name, then sort the remaining keys. -/
def canonicalSlo {V : Type} (d : List (String × V)) : List (String × V) :=
  sortByKey (d.filter (fun kv => !(["name"].contains kv.1)))

/-- compare_slo(slo1, slo2): serialize both canonicalized dicts (the leaf
serialization json.dumps is passed in as a function) and compare the strings. -/
def compare_slo {V : Type} (dumps : List (String × V) → String)
    (slo1 slo2 : List (String × V)) : Bool :=
  dumps (canonicalSlo slo1) == dumps (canonicalSlo slo2)

/-- Python dict assignment d[k] = v on the assoc-list model: overwrite the
first binding of k, else append. -/
def setKey {V : Type} (d : List (String × V)) (k : String) (v : V) :
    List (String × V) :=
  match d with
  | [] => [(k, v)]
  | kv :: t => if kv.1 = k then (k, v) :: t else kv :: setKey t k v

theorem filter_name_setKey {V : Type} (d : List (String × V)) (v : V) :
    (setKey d "name" v).filter (fun kv => !(["name"].contains kv.1))
      = d.filter (fun kv => !(["name"].contains kv.1)) := by
  induction d with
  | nil => simp [setKey]
  | cons kv t ih =>
    by_cases hk : kv.1 = "name"
    · simp [setKey, hk, ih]
    · simp [setKey, hk]
      simpa using ih

theorem canonicalSlo_setKey {V : Type} (d : List (String × V)) (v : V) :
    canonicalSlo (setKey d "name" v) = canonicalSlo d := by
  unfold canonicalSlo
  rw [filter_name_setKey]

end StackdriverServiceMonitoringBackend

/-- C8: compare_slo compares the two dictionaries by canonical sorted-key
serialization after removing the key name from each; it is reflexive,
symmetric, and insensitive to adding or changing the name key in either
argument. -/
theorem compare_slo_props {V : Type} (dumps : List (String × V) → String)
    (a b : List (String × V)) (v : V) :
    (StackdriverServiceMonitoringBackend.compare_slo dumps a b
       = (dumps (StackdriverServiceMonitoringBackend.canonicalSlo a)
           == dumps (StackdriverServiceMonitoringBackend.canonicalSlo b)))
    ∧ StackdriverServiceMonitoringBackend.compare_slo dumps a a = true
    ∧ StackdriverServiceMonitoringBackend.compare_slo dumps a b
      = StackdriverServiceMonitoringBackend.compare_slo dumps b a
    ∧ StackdriverServiceMonitoringBackend.compare_slo dumps
        (StackdriverServiceMonitoringBackend.setKey a "name" v) b
      = StackdriverServiceMonitoringBackend.compare_slo dumps a b
    ∧ StackdriverServiceMonitoringBackend.compare_slo dumps a
        (StackdriverServiceMonitoringBackend.setKey b "name" v)
      = StackdriverServiceMonitoringBackend.compare_slo dumps a b := by
  refine ⟨rfl, ?_, ?_, ?_, ?_⟩
  · simp [StackdriverServiceMonitoringBackend.compare_slo]
  · unfold StackdriverServiceMonitoringBackend.compare_slo
    by_cases h : dumps (StackdriverServiceMonitoringBackend.canonicalSlo a)
        = dumps (StackdriverServiceMonitoringBackend.canonicalSlo b)
    · rw [h]
    · rw [beq_eq_false_iff_ne.mpr h, beq_eq_false_iff_ne.mpr (Ne.symm h)]
  · unfold StackdriverServiceMonitoringBackend.compare_slo
    rw [StackdriverServiceMonitoringBackend.canonicalSlo_setKey]
  · unfold StackdriverServiceMonitoringBackend.compare_slo
    rw [StackdriverServiceMonitoringBackend.canonicalSlo_setKey]

/-- The accepted truthy strings of str2bool. -/
def trueStrings : List String := ["yes", "true", "t", "y", "1"]

/-- The accepted falsy strings of str2bool. -/
def falseStrings : List String := ["no", "false", "f", "n", "0"]

/-- The argument of str2bool: argparse may hand it an already-parsed bool or a
string. -/
inductive StrOrBool where
  | ofBool (b : Bool)
  | ofString (s : String)
deriving DecidableEq

/-- The argparse.ArgumentTypeError raised on unrecognized boolean strings. -/
inductive ArgError where
  | argumentTypeError (msg : String)
deriving DecidableEq

/-- Python str.lower(), character-wise (the accepted literals are ASCII). -/
def pyLower (s : String) : String := String.mk (s.data.map Char.toLower)

/-- str2bool(string) from utils.py: pass a bool through; otherwise lower-case
the string and test it against the accepted truthy and falsy string sets. -/
def str2bool : StrOrBool → Except ArgError Bool
  | StrOrBool.ofBool b => Except.ok b
  | StrOrBool.ofString s =>
    if pyLower s ∈ trueStrings then Except.ok true
    else if pyLower s ∈ falseStrings then Except.ok false
    else Except.error (ArgError.argumentTypeError "Boolean value expected.")

theorem trueStrings_falseStrings_disjoint (x : String) (hx : x ∈ trueStrings) :
    x ∉ falseStrings := by
  fin_cases hx <;> decide

/-- C10: str2bool returns a bool argument unchanged; on a string it returns
true exactly when the lower-cased string is an accepted truthy literal, false
exactly when it is an accepted falsy literal, raises ArgumentTypeError exactly
otherwise, and its result depends only on the lower-cased string, so case
never affects the parsed CLI boolean. -/
theorem str2bool_spec (b : Bool) (s s1 s2 : String) :
    str2bool (StrOrBool.ofBool b) = Except.ok b
    ∧ (str2bool (StrOrBool.ofString s) = Except.ok true ↔ pyLower s ∈ trueStrings)
    ∧ (str2bool (StrOrBool.ofString s) = Except.ok false ↔ pyLower s ∈ falseStrings)
    ∧ ((str2bool (StrOrBool.ofString s)).isOk = false
        ↔ pyLower s ∉ trueStrings ∧ pyLower s ∉ falseStrings)
    ∧ (pyLower s1 = pyLower s2
        → str2bool (StrOrBool.ofString s1) = str2bool (StrOrBool.ofString s2)) := by
  refine ⟨rfl, ?_, ?_, ?_, ?_⟩
  · unfold str2bool
    by_cases h1 : pyLower s ∈ trueStrings
    · simp [h1]
    · by_cases h2 : pyLower s ∈ falseStrings <;> simp [h1, h2]
  · unfold str2bool
    by_cases h1 : pyLower s ∈ trueStrings
    · simp [h1]
      exact trueStrings_falseStrings_disjoint _ h1
    · by_cases h2 : pyLower s ∈ falseStrings <;> simp [h1, h2]
  · unfold str2bool
    by_cases h1 : pyLower s ∈ trueStrings
    · simp [h1, Except.isOk, Except.toBool]
    · by_cases h2 : pyLower s ∈ falseStrings <;>
        simp [h1, h2, Except.isOk, Except.toBool]
  · intro h
    simp only [str2bool]
    rw [h]

/-- C10 witness: the characterization at b = true, s = "TRUE", and the
case-insensitivity instance at "Yes" versus "yes". -/
theorem str2bool_spec_witness :
    str2bool (StrOrBool.ofBool true) = Except.ok true
    ∧ (str2bool (StrOrBool.ofString "TRUE") = Except.ok true
        ↔ pyLower "TRUE" ∈ trueStrings)
    ∧ (str2bool (StrOrBool.ofString "TRUE") = Except.ok false
        ↔ pyLower "TRUE" ∈ falseStrings)
    ∧ ((str2bool (StrOrBool.ofString "TRUE")).isOk = false
        ↔ pyLower "TRUE" ∉ trueStrings
          ∧ pyLower "TRUE" ∉ falseStrings)
    ∧ str2bool (StrOrBool.ofString "Yes") = str2bool (StrOrBool.ofString "yes") :=
  ⟨(str2bool_spec true "TRUE" "Yes" "yes").1,
   (str2bool_spec true "TRUE" "Yes" "yes").2.1,
   (str2bool_spec true "TRUE" "Yes" "yes").2.2.1,
   (str2bool_spec true "TRUE" "Yes" "yes").2.2.2.1,
   (str2bool_spec true "TRUE" "Yes" "yes").2.2.2.2 (by decide)⟩

/-- Modelled from the spec: the report computation engine (the compute module
imported by cli.py) is not part of the sources here; section 4.2 step 3 of the
spec defines the good_bad_ratio SLI derivation as good / (good + bad), with a
zero denominator yielding 1.0 by the no-traffic-is-compliant policy. -/
def compute_sli (good bad : ℚ) : ℚ :=
  if good + bad = 0 then 1 else good / (good + bad)

/-- Modelled from the spec: the valid-count form of the SLI derivation,
good / valid, with a zero denominator yielding 1.0 by the same policy. -/
def compute_sli_valid (good valid : ℚ) : ℚ :=
  if valid = 0 then 1 else good / valid

/-- C2: in the good_bad_ratio SLI derivation, a measurement with good = 0 and
bad = 0 (resp. valid = 0 in the valid-count form) yields exactly 1.0, and the
derivation is total, so no error is raised. -/
theorem compute_sli_zero_traffic :
    compute_sli 0 0 = 1 ∧ compute_sli_valid 0 0 = 1 := by
  constructor <;> simp [compute_sli, compute_sli_valid]

/-! ## parse_config environment substitution (utils.py)

parse_config reads the file, rewrites it with replace_env_vars and hands the
result to yaml.safe_load.  The file content is embedded as a list of
characters, the environment as a partial map from variable names to values and
the YAML parser as an arbitrary function of the substituted text.  The regex
findall over pattern dollar-brace-word-brace is embedded as a left-to-right
scanner (tokenize) that splits the content into literal characters and
variable references; braces are written via their character codes. -/

/-- The regex word character class (ASCII letters, digits, underscore). -/
def isWordChar (c : Char) : Bool := c.isAlphanum || c == '_'

/-- The opening brace character. -/
def lbrace : Char := Char.ofNat 123

/-- The closing brace character. -/
def rbrace : Char := Char.ofNat 125

/-- A piece of the scanned file content: a literal character run or a
variable reference dollar-brace-name-brace. -/
inductive Chunk where
  | lit (s : List Char)
  | var (w : List Char)
deriving DecidableEq

/-- The text a chunk stands for; a var chunk renders as its reference. -/
def varPat (w : List Char) : List Char := '$' :: lbrace :: (w ++ [rbrace])

def chunkRender : Chunk → List Char
  | Chunk.lit s => s
  | Chunk.var w => varPat w

def render (cs : List Chunk) : List Char := (cs.map chunkRender).flatten

/-- Fuelled left-to-right scanner for the findall pattern: at a dollar
followed by an opening brace, a non-empty run of word characters and a closing
brace, emit a var chunk and continue past it; otherwise emit the current
character as a literal and continue one position later, exactly as the regex
engine advances.  The fuel only bounds recursion; tokenize supplies enough. -/
def tokenizeGo : Nat → List Char → List Chunk
  | 0, _ => []
  | _ + 1, [] => []
  | fuel + 1, c :: rest =>
    if c = '$' then
      match rest with
      | [] => Chunk.lit [c] :: tokenizeGo fuel []
      | c2 :: rest2 =>
        if c2 = lbrace then
          match rest2.takeWhile isWordChar, rest2.dropWhile isWordChar with
          | [], _ => Chunk.lit [c] :: tokenizeGo fuel rest
          | w, r0 :: rtail =>
            if r0 = rbrace then Chunk.var w :: tokenizeGo fuel rtail
            else Chunk.lit [c] :: tokenizeGo fuel rest
          | _, [] => Chunk.lit [c] :: tokenizeGo fuel rest
        else Chunk.lit [c] :: tokenizeGo fuel rest
    else Chunk.lit [c] :: tokenizeGo fuel rest

def tokenize (l : List Char) : List Chunk := tokenizeGo (l.length + 1) l

/-- The variable names of a chunk list, in order of occurrence. -/
def varsOf (cs : List Chunk) : List (List Char) :=
  cs.filterMap (fun c => match c with | Chunk.var w => some w | Chunk.lit _ => none)

/-- pattern.findall(content): every captured variable name, in order. -/
def findVars (content : List Char) : List (List Char) := varsOf (tokenize content)

/-- Fuelled Python str.replace: replace every non-overlapping occurrence of
pat, scanning left to right and not rescanning the replacement text. -/
def replaceAllGo (pat rep : List Char) : Nat → List Char → List Char
  | 0, l => l
  | _ + 1, [] => []
  | fuel + 1, c :: rest =>
    if pat ≠ [] ∧ pat.isPrefixOf (c :: rest) then
      rep ++ replaceAllGo pat rep fuel ((c :: rest).drop pat.length)
    else c :: replaceAllGo pat rep fuel rest

def replaceAll (pat rep l : List Char) : List Char := replaceAllGo pat rep (l.length + 1) l

/-- The loop body of replace_env_vars: replace all occurrences of one
variable reference by the environment value, raising KeyError (here: the
offending name) when the variable is not set. -/
def substOne (env : List Char → Option (List Char)) (acc : List Char)
    (v : List Char) : Except (List Char) (List Char) :=
  match env v with
  | some val => Except.ok (replaceAll (varPat v) val acc)
  | none => Except.error v

/-- replace_env_vars(content): for each variable name found by findall, in
order, replace all occurrences of its reference by the value of the
environment variable. -/
def replace_env_vars (env : List Char → Option (List Char)) (content : List Char) :
    Except (List Char) (List Char) :=
  (findVars content).foldlM (substOne env) content

/-- parse_config(path): read the content, substitute environment variables,
then parse the result with yaml.safe_load (passed in as load). -/
def parse_config {Y : Type} (load : List Char → Y) (env : List Char → Option (List Char))
    (content : List Char) : Except (List Char) Y :=
  (replace_env_vars env content).map load

/-- Modelled from the spec: single-pass substitution, every occurrence of a
variable reference in the file content replaced by the value of that
environment variable, an error when a referenced variable is unset. -/
def specSubstChunks (env : List Char → Option (List Char)) :
    List Chunk → Except (List Char) (List Char)
  | [] => Except.ok []
  | Chunk.lit s :: rest => (specSubstChunks env rest).map (fun r => s ++ r)
  | Chunk.var w :: rest =>
    match env w with
    | none => Except.error w
    | some val => (specSubstChunks env rest).map (fun r => val ++ r)

/-- Modelled from the spec: the single-pass substitution applied to the
scanned file content. -/
def spec_substitute (env : List Char → Option (List Char)) (content : List Char) :
    Except (List Char) (List Char) :=
  specSubstChunks env (tokenize content)

/-- Every dollar sign in the content begins a well-formed variable reference
(no stray dollar ends up in a literal chunk). -/
def noStrayDollar (content : List Char) : Bool :=
  (tokenize content).all (fun c =>
    match c with
    | Chunk.lit s => decide ('$' ∉ s)
    | Chunk.var _ => true)

/-! ### Scanner and replacement lemmas -/

theorem dropWhile_length_le (p : Char → Bool) (l : List Char) :
    (l.dropWhile p).length ≤ l.length := by
  induction l with
  | nil => simp
  | cons c t ih =>
    by_cases h : p c
    · simp only [List.dropWhile, h]
      simp only [List.length_cons]
      omega
    · simp [List.dropWhile, h]

theorem tokenizeGo_nil (f : Nat) : tokenizeGo f [] = [] := by
  cases f <;> rfl

theorem tokenizeGo_fuel (f1 : Nat) :
    ∀ (l : List Char) (f2 : Nat), l.length < f1 → l.length < f2 →
      tokenizeGo f1 l = tokenizeGo f2 l := by
  induction f1 with
  | zero => intro l f2 h1 h2; omega
  | succ f ih =>
    intro l f2 h1 h2
    cases l with
    | nil => rw [tokenizeGo_nil, tokenizeGo_nil]
    | cons c rest =>
      cases f2 with
      | zero => omega
      | succ g =>
        have hrest1 : rest.length < f := by simp at h1; omega
        have hrest2 : rest.length < g := by simp at h2; omega
        simp only [tokenizeGo]
        by_cases hc : c = '$'
        · simp only [if_pos hc]
          cases rest with
          | nil => rw [tokenizeGo_nil, tokenizeGo_nil]
          | cons c2 rest2 =>
            by_cases hc2 : c2 = lbrace
            · simp only [if_pos hc2]
              cases htw : rest2.takeWhile isWordChar with
              | nil =>
                cases hdw : rest2.dropWhile isWordChar with
                | nil => rw [ih _ _ hrest1 hrest2]
                | cons r0 rtail => rw [ih _ _ hrest1 hrest2]
              | cons w0 wrest =>
                cases hdw : rest2.dropWhile isWordChar with
                | nil => rw [ih _ _ hrest1 hrest2]
                | cons r0 rtail =>
                  have hlen : rtail.length < rest2.length := by
                    have hd := dropWhile_length_le isWordChar rest2
                    rw [hdw] at hd
                    simp at hd
                    omega
                  have hr2 : (c2 :: rest2).length = rest2.length + 1 := rfl
                  by_cases hr : r0 = rbrace
                  · simp only [if_pos hr]
                    have ht1 : rtail.length < f := by
                      rw [hr2] at hrest1; omega
                    have ht2 : rtail.length < g := by
                      rw [hr2] at hrest2; omega
                    rw [ih _ _ ht1 ht2]
                  · simp only [if_neg hr]
                    rw [ih _ _ hrest1 hrest2]
            · simp only [if_neg hc2]
              rw [ih _ _ hrest1 hrest2]
        · simp only [if_neg hc]
          rw [ih _ _ hrest1 hrest2]

theorem tokenize_nil : tokenize [] = [] := rfl

/-- One-step unfolding of the scanner, with the fuel hidden. -/
theorem tokenize_cons (c : Char) (rest : List Char) :
    tokenize (c :: rest) =
      if c = '$' then
        match rest with
        | [] => [Chunk.lit [c]]
        | c2 :: rest2 =>
          if c2 = lbrace then
            match rest2.takeWhile isWordChar, rest2.dropWhile isWordChar with
            | [], _ => Chunk.lit [c] :: tokenize rest
            | w, r0 :: rtail =>
              if r0 = rbrace then Chunk.var w :: tokenize rtail
              else Chunk.lit [c] :: tokenize rest
            | _, [] => Chunk.lit [c] :: tokenize rest
          else Chunk.lit [c] :: tokenize rest
      else Chunk.lit [c] :: tokenize rest := by
  show tokenizeGo (rest.length + 2) (c :: rest) = _
  simp only [tokenizeGo]
  by_cases hc : c = '$'
  · simp only [if_pos hc]
    cases rest with
    | nil => rw [tokenizeGo_nil]
    | cons c2 rest2 =>
      by_cases hc2 : c2 = lbrace
      · simp only [if_pos hc2]
        cases htw : rest2.takeWhile isWordChar with
        | nil =>
          cases hdw : rest2.dropWhile isWordChar with
          | nil => rfl
          | cons r0 rtail => rfl
        | cons w0 wrest =>
          cases hdw : rest2.dropWhile isWordChar with
          | nil => rfl
          | cons r0 rtail =>
            by_cases hr : r0 = rbrace
            · simp only [if_pos hr]
              have hlen : rtail.length < rest2.length := by
                have hd := dropWhile_length_le isWordChar rest2
                rw [hdw] at hd
                simp at hd
                omega
              rw [tokenizeGo_fuel _ rtail (rtail.length + 1)
                (by simp only [List.length_cons]; omega) (by omega)]
              rfl
            · simp only [if_neg hr]
              rfl
      · simp only [if_neg hc2]
        rfl
  · simp only [if_neg hc]
    rfl

theorem replaceAllGo_fuel (pat rep : List Char) (f1 : Nat) :
    ∀ (l : List Char) (f2 : Nat), l.length < f1 → l.length < f2 →
      replaceAllGo pat rep f1 l = replaceAllGo pat rep f2 l := by
  induction f1 with
  | zero => intro l f2 h1 h2; omega
  | succ f ih =>
    intro l f2 h1 h2
    cases l with
    | nil => cases f2 with | zero => omega | succ g => rfl
    | cons c rest =>
      cases f2 with
      | zero => omega
      | succ g =>
        have hrest1 : rest.length < f := by simp at h1; omega
        have hrest2 : rest.length < g := by simp at h2; omega
        simp only [replaceAllGo]
        by_cases hp : pat ≠ [] ∧ pat.isPrefixOf (c :: rest)
        · simp only [if_pos hp]
          have hplen : 0 < pat.length := by
            cases pat with
            | nil => exact absurd rfl hp.1
            | cons a as => simp
          have hd1 : ((c :: rest).drop pat.length).length < f := by
            simp [List.length_drop]
            omega
          have hd2 : ((c :: rest).drop pat.length).length < g := by
            simp [List.length_drop]
            omega
          rw [ih _ _ hd1 hd2]
        · simp only [if_neg hp]
          rw [ih _ _ hrest1 hrest2]

theorem replaceAll_nil (pat rep : List Char) : replaceAll pat rep [] = [] := rfl

/-- One-step unfolding of str.replace, with the fuel hidden. -/
theorem replaceAll_cons (pat rep : List Char) (c : Char) (rest : List Char) :
    replaceAll pat rep (c :: rest) =
      if pat ≠ [] ∧ pat.isPrefixOf (c :: rest) then
        rep ++ replaceAll pat rep ((c :: rest).drop pat.length)
      else c :: replaceAll pat rep rest := by
  show replaceAllGo pat rep (rest.length + 2) (c :: rest) = _
  simp only [replaceAllGo]
  by_cases hp : pat ≠ [] ∧ pat.isPrefixOf (c :: rest)
  · simp only [if_pos hp]
    have hplen : 0 < pat.length := by
      cases pat with
      | nil => exact absurd rfl hp.1
      | cons a as => simp
    rw [replaceAllGo_fuel pat rep _ ((c :: rest).drop pat.length)
      (((c :: rest).drop pat.length).length + 1)
      (by simp [List.length_drop]; omega) (by omega)]
    rfl
  · simp only [if_neg hp]
    rfl

theorem render_nil : render [] = [] := rfl

theorem render_cons (c : Chunk) (cs : List Chunk) :
    render (c :: cs) = chunkRender c ++ render cs := by
  simp [render]

/-- The scanner is lossless: rendering the chunks gives back the content. -/
theorem render_tokenize : ∀ (n : Nat) (l : List Char), l.length ≤ n →
    render (tokenize l) = l := by
  intro n
  induction n with
  | zero =>
    intro l h
    have : l = [] := List.eq_nil_of_length_eq_zero (Nat.le_zero.mp h)
    rw [this]
    rfl
  | succ n ih =>
    intro l h
    cases l with
    | nil => rfl
    | cons c rest =>
      have hrest : rest.length ≤ n := by simp at h; omega
      rw [tokenize_cons]
      by_cases hc : c = '$'
      · simp only [if_pos hc]
        cases rest with
        | nil => simp [render, chunkRender]
        | cons c2 rest2 =>
          by_cases hc2 : c2 = lbrace
          · simp only [if_pos hc2]
            cases htw : rest2.takeWhile isWordChar with
            | nil =>
              cases hdw : rest2.dropWhile isWordChar with
              | nil => rw [render_cons, ih _ hrest]; simp [chunkRender]
              | cons r0 rtail => rw [render_cons, ih _ hrest]; simp [chunkRender]
            | cons w0 wrest =>
              cases hdw : rest2.dropWhile isWordChar with
              | nil => rw [render_cons, ih _ hrest]; simp [chunkRender]
              | cons r0 rtail =>
                have hsplit : (w0 :: wrest) ++ (r0 :: rtail) = rest2 := by
                  rw [← htw, ← hdw]
                  exact List.takeWhile_append_dropWhile isWordChar rest2
                have hlen : rtail.length < rest2.length := by
                  have hd := dropWhile_length_le isWordChar rest2
                  rw [hdw] at hd
                  simp at hd
                  omega
                by_cases hr : r0 = rbrace
                · simp only [if_pos hr]
                  rw [render_cons, ih rtail (by simp at hrest; omega)]
                  subst hc
                  subst hc2
                  subst hr
                  simp only [chunkRender, varPat]
                  rw [← hsplit]
                  simp [List.append_assoc]
                · simp only [if_neg hr]
                  rw [render_cons, ih _ hrest]
                  simp [chunkRender, hc]
          · simp only [if_neg hc2]
            rw [render_cons, ih _ hrest]
            simp [chunkRender, hc]
      · simp only [if_neg hc]
        rw [render_cons, ih _ hrest]
        simp [chunkRender]

theorem render_tokenize_eq (l : List Char) : render (tokenize l) = l :=
  render_tokenize l.length l le_rfl

/-- Every var chunk the scanner emits has a non-empty all-word-character name. -/
theorem tokenize_wf : ∀ (n : Nat) (l : List Char), l.length ≤ n →
    ∀ w, Chunk.var w ∈ tokenize l → w ≠ [] ∧ ∀ c ∈ w, isWordChar c := by
  intro n
  induction n with
  | zero =>
    intro l h w hw
    have : l = [] := List.eq_nil_of_length_eq_zero (Nat.le_zero.mp h)
    rw [this] at hw
    simp [tokenize_nil] at hw
  | succ n ih =>
    intro l h w hw
    cases l with
    | nil => simp [tokenize_nil] at hw
    | cons c rest =>
      have hrest : rest.length ≤ n := by simp at h; omega
      rw [tokenize_cons] at hw
      by_cases hc : c = '$'
      · simp only [if_pos hc] at hw
        cases rest with
        | nil => simp at hw
        | cons c2 rest2 =>
          by_cases hc2 : c2 = lbrace
          · simp only [if_pos hc2] at hw
            cases htw : rest2.takeWhile isWordChar with
            | nil =>
              cases hdw : rest2.dropWhile isWordChar with
              | nil =>
                simp only [htw, hdw] at hw
                simp at hw
                exact ih _ hrest w hw
              | cons r0 rtail =>
                simp only [htw, hdw] at hw
                simp at hw
                exact ih _ hrest w hw
            | cons w0 wrest =>
              cases hdw : rest2.dropWhile isWordChar with
              | nil =>
                simp only [htw, hdw] at hw
                simp at hw
                exact ih _ hrest w hw
              | cons r0 rtail =>
                simp only [htw, hdw] at hw
                have hlen : rtail.length < rest2.length := by
                  have hd := dropWhile_length_le isWordChar rest2
                  rw [hdw] at hd
                  simp at hd
                  omega
                by_cases hr : r0 = rbrace
                · simp only [if_pos hr] at hw
                  simp at hw
                  rcases hw with hw | hw
                  · refine ⟨by simp [hw], ?_⟩
                    intro ch hch
                    rw [hw] at hch
                    have hmem : ch ∈ rest2.takeWhile isWordChar := by
                      rw [htw]; exact hch
                    exact List.mem_takeWhile_imp hmem
                  · exact ih rtail (by simp at hrest; omega) w hw
                · simp only [if_neg hr] at hw
                  simp at hw
                  exact ih _ hrest w hw
          · simp only [if_neg hc2] at hw
            simp at hw
            exact ih _ hrest w hw
      · simp only [if_neg hc] at hw
        simp at hw
        exact ih _ hrest w hw

theorem tokenize_wf_eq (l : List Char) (w : List Char)
    (hw : Chunk.var w ∈ tokenize l) : w ≠ [] ∧ ∀ c ∈ w, isWordChar c :=
  tokenize_wf l.length l le_rfl w hw

theorem varsOf_nil : varsOf [] = [] := rfl

theorem varsOf_cons_lit (s : List Char) (cs : List Chunk) :
    varsOf (Chunk.lit s :: cs) = varsOf cs := rfl

theorem varsOf_cons_var (u : List Char) (cs : List Chunk) :
    varsOf (Chunk.var u :: cs) = u :: varsOf cs := rfl

theorem mem_varsOf (cs : List Chunk) (w : List Char) :
    w ∈ varsOf cs ↔ Chunk.var w ∈ cs := by
  induction cs with
  | nil => simp [varsOf]
  | cons c rest ih =>
    cases c with
    | lit s =>
      rw [varsOf_cons_lit]
      simp [ih]
    | var u =>
      rw [varsOf_cons_var]
      simp [List.mem_cons, Chunk.var.injEq, ih]

theorem isPrefixOf_append_self (l t : List Char) : l.isPrefixOf (l ++ t) = true := by
  induction l with
  | nil => simp [List.isPrefixOf]
  | cons a as ih => simp [List.isPrefixOf, ih]

theorem isWordChar_ne_dollar (c : Char) (h : isWordChar c) : c ≠ '$' := by
  intro hc
  rw [hc] at h
  exact absurd h (by decide)

theorem isWordChar_ne_rbrace (c : Char) (h : isWordChar c) : c ≠ rbrace := by
  intro hc
  rw [hc] at h
  exact absurd h (by decide)

/-- A replacement pattern starting with a dollar walks through dollar-free text
unchanged. -/
theorem replaceAll_dollar_free (p rep : List Char) :
    ∀ (s t : List Char), (∀ c ∈ s, c ≠ '$') →
      replaceAll ('$' :: p) rep (s ++ t) = s ++ replaceAll ('$' :: p) rep t := by
  intro s
  induction s with
  | nil => intro t h; simp
  | cons c srest ih =>
    intro t h
    have hc : c ≠ '$' := h c (by simp)
    rw [List.cons_append, replaceAll_cons]
    have hpre : ('$' :: p).isPrefixOf (c :: (srest ++ t)) = false := by
      simp [List.isPrefixOf]
      intro hcc
      exact absurd hcc.symm hc
    rw [if_neg (by rintro ⟨h1, h2⟩; simp [hpre] at h2)]
    rw [ih t (fun u hu => h u (by simp [hu]))]
    rfl

/-- Two distinct all-word-character names cannot confuse the prefix test: the
closing brace of the shorter name meets a word character of the other. -/
theorem name_prefix_false :
    ∀ (v w t : List Char), (∀ c ∈ v, isWordChar c) → (∀ c ∈ w, isWordChar c) →
      v ≠ w → ((v ++ [rbrace]).isPrefixOf (w ++ rbrace :: t)) = false := by
  intro v
  induction v with
  | nil =>
    intro w t _ hw hne
    cases w with
    | nil => exact absurd rfl hne
    | cons b ws =>
      have hb : b ≠ rbrace := isWordChar_ne_rbrace b (hw b (by simp))
      simp [List.isPrefixOf]
      intro hbb
      exact absurd hbb.symm hb
  | cons a vs ih =>
    intro w t hv hw hne
    cases w with
    | nil =>
      have ha : a ≠ rbrace := isWordChar_ne_rbrace a (hv a (by simp))
      simp [List.isPrefixOf]
      intro hbb
      exact absurd hbb ha
    | cons b ws =>
      by_cases hab : a = b
      · have hne2 : vs ≠ ws := by
          intro hvw
          exact hne (by rw [hab, hvw])
        simp only [List.cons_append, List.isPrefixOf, List.append_eq]
        rw [ih ws t (fun c hc => hv c (by simp [hc])) (fun c hc => hw c (by simp [hc])) hne2]
        simp
      · simp [List.isPrefixOf]
        intro hbb
        exact absurd hbb hab

/-- Replacing a reference at its own occurrence substitutes and moves on. -/
theorem replaceAll_varPat_self (v rep t : List Char) :
    replaceAll (varPat v) rep (varPat v ++ t) = rep ++ replaceAll (varPat v) rep t := by
  rw [show varPat v ++ t = '$' :: (lbrace :: (v ++ [rbrace]) ++ t) from rfl]
  rw [replaceAll_cons]
  rw [if_pos ?_]
  · rw [show '$' :: (lbrace :: (v ++ [rbrace]) ++ t) = varPat v ++ t from rfl]
    rw [List.drop_left]
  · constructor
    · simp [varPat]
    · rw [show '$' :: (lbrace :: (v ++ [rbrace]) ++ t) = varPat v ++ t from rfl]
      exact isPrefixOf_append_self (varPat v) t

/-- Replacing one reference walks through a different reference unchanged. -/
theorem replaceAll_varPat_other (v w rep t : List Char)
    (hv : ∀ c ∈ v, isWordChar c) (hw : ∀ c ∈ w, isWordChar c) (hne : v ≠ w) :
    replaceAll (varPat v) rep (varPat w ++ t) = varPat w ++ replaceAll (varPat v) rep t := by
  rw [show varPat w ++ t = '$' :: (lbrace :: (w ++ [rbrace]) ++ t) from rfl]
  rw [replaceAll_cons]
  have hpre : (varPat v).isPrefixOf ('$' :: (lbrace :: (w ++ [rbrace]) ++ t)) = false := by
    show (('$' :: lbrace :: (v ++ [rbrace])).isPrefixOf
      ('$' :: lbrace :: ((w ++ [rbrace]) ++ t))) = false
    simp only [List.isPrefixOf, beq_self_eq_true, Bool.true_and]
    rw [show (w ++ [rbrace]) ++ t = w ++ rbrace :: t by simp]
    exact name_prefix_false v w t hv hw hne
  rw [if_neg (by rintro ⟨h1, h2⟩; rw [hpre] at h2; exact absurd h2 (by decide))]
  have hfree : ∀ c ∈ lbrace :: (w ++ [rbrace]), c ≠ '$' := by
    intro c hc
    simp at hc
    rcases hc with rfl | hc | rfl
    · decide
    · exact isWordChar_ne_dollar c (hw c hc)
    · decide
  have := replaceAll_dollar_free (lbrace :: (v ++ [rbrace])) rep
    (lbrace :: (w ++ [rbrace])) t hfree
  rw [show varPat v = '$' :: (lbrace :: (v ++ [rbrace])) from rfl]
  rw [this]
  simp [varPat]

/-- Substitute the value of one variable for all its var chunks. -/
def substStep (v val : List Char) (cs : List Chunk) : List Chunk :=
  cs.map (fun c =>
    match c with
    | Chunk.var w => if w = v then Chunk.lit val else Chunk.var w
    | Chunk.lit s => Chunk.lit s)

/-- Chunk lists arising during substitution: literal runs are dollar-free and
names are well formed. -/
def ChunksWF (cs : List Chunk) : Prop :=
  (∀ s, Chunk.lit s ∈ cs → '$' ∉ s)
  ∧ (∀ w, Chunk.var w ∈ cs → w ≠ [] ∧ ∀ c ∈ w, isWordChar c)

theorem substStep_wf (v val : List Char) (cs : List Chunk)
    (h : ChunksWF cs) (hval : '$' ∉ val) : ChunksWF (substStep v val cs) := by
  constructor
  · intro s hs
    simp only [substStep, List.mem_map] at hs
    obtain ⟨c, hc, hcs⟩ := hs
    cases c with
    | lit u =>
      simp at hcs
      rw [← hcs]
      exact h.1 u hc
    | var w =>
      by_cases hwv : w = v
      · simp [hwv] at hcs
        rw [← hcs]
        exact hval
      · simp [hwv] at hcs
  · intro w hs
    simp only [substStep, List.mem_map] at hs
    obtain ⟨c, hc, hcs⟩ := hs
    cases c with
    | lit u => simp at hcs
    | var u =>
      by_cases huv : u = v
      · simp [huv] at hcs
      · simp [huv] at hcs
        rw [← hcs]
        exact h.2 u hc

/-- Python str.replace of one reference on the rendered text is the chunk-wise
substitution of that variable. -/
theorem replaceAll_render (v val : List Char) (cs : List Chunk)
    (h : ChunksWF cs) (hvw : ∀ c ∈ v, isWordChar c) :
    replaceAll (varPat v) val (render cs) = render (substStep v val cs) := by
  induction cs with
  | nil => rfl
  | cons c rest ih =>
    have hrest : ChunksWF rest :=
      ⟨fun s hs => h.1 s (by simp [hs]), fun w hw => h.2 w (by simp [hw])⟩
    cases c with
    | lit s =>
      rw [render_cons]
      have hfree : ∀ ch ∈ s, ch ≠ '$' := by
        intro ch hch hd
        rw [hd] at hch
        exact h.1 s (by simp) hch
      rw [show chunkRender (Chunk.lit s) = s from rfl]
      rw [show varPat v = '$' :: (lbrace :: (v ++ [rbrace])) from rfl]
      rw [replaceAll_dollar_free _ val s (render rest) hfree]
      rw [show ('$' :: (lbrace :: (v ++ [rbrace]))) = varPat v from rfl]
      rw [ih hrest]
      rw [show substStep v val (Chunk.lit s :: rest)
        = Chunk.lit s :: substStep v val rest from rfl]
      rw [render_cons]
      rfl
    | var w =>
      rw [render_cons]
      rw [show chunkRender (Chunk.var w) = varPat w from rfl]
      by_cases hwv : w = v
      · rw [hwv]
        rw [replaceAll_varPat_self v val (render rest)]
        rw [ih hrest]
        rw [show substStep v val (Chunk.var v :: rest)
          = Chunk.lit val :: substStep v val rest by simp [substStep]]
        rw [render_cons]
        rfl
      · have hww := h.2 w (by simp)
        rw [replaceAll_varPat_other v w val (render rest) hvw hww.2
          (fun hvw2 => hwv hvw2.symm)]
        rw [ih hrest]
        rw [show substStep v val (Chunk.var w :: rest)
          = Chunk.var w :: substStep v val rest by simp [substStep, hwv]]
        rw [render_cons]
        rfl

theorem substStep_var_mem (v val w : List Char) (cs : List Chunk)
    (h : Chunk.var w ∈ substStep v val cs) : Chunk.var w ∈ cs ∧ w ≠ v := by
  simp only [substStep, List.mem_map] at h
  obtain ⟨c, hc, hcs⟩ := h
  cases c with
  | lit s => simp at hcs
  | var u =>
    by_cases huv : u = v
    · simp [huv] at hcs
    · simp [huv] at hcs
      subst hcs
      exact ⟨hc, huv⟩

/-- The sequential fold of replacements over the rendered chunks is the
chunk-level fold of substitutions, provided every referenced variable is set,
well formed, and dollar-free. -/
theorem foldlM_substOne_ok (env : List Char → Option (List Char)) :
    ∀ (vars : List (List Char)) (cs : List Chunk), ChunksWF cs →
      (∀ u ∈ vars, (env u).isSome ∧ ∀ c ∈ u, isWordChar c) →
      (∀ u val, env u = some val → '$' ∉ val) →
      (∀ w, Chunk.var w ∈ cs → w ∈ vars) →
      vars.foldlM (substOne env) (render cs)
        = Except.ok (render (vars.foldl
            (fun s u => substStep u ((env u).getD []) s) cs)) := by
  intro vars
  induction vars with
  | nil => intro cs _ _ _ _; rfl
  | cons u urest ih =>
    intro cs hwf hall hfree hsub
    obtain ⟨husome, huword⟩ := hall u (by simp)
    obtain ⟨val, hval⟩ := Option.isSome_iff_exists.mp husome
    rw [List.foldlM_cons]
    rw [show substOne env (render cs) u
      = Except.ok (replaceAll (varPat u) val (render cs)) by simp [substOne, hval]]
    rw [show (Except.ok (replaceAll (varPat u) val (render cs))
        >>= fun acc => urest.foldlM (substOne env) acc)
      = urest.foldlM (substOne env) (replaceAll (varPat u) val (render cs)) from rfl]
    rw [replaceAll_render u val cs hwf huword]
    rw [ih (substStep u val cs)
      (substStep_wf u val cs hwf (hfree u val hval))
      (fun x hx => hall x (by simp [hx]))
      hfree
      (fun w hw => by
        obtain ⟨hmem, hne⟩ := substStep_var_mem u val w cs hw
        have hv2 := hsub w hmem
        simp at hv2
        rcases hv2 with rfl | hv2
        · exact absurd rfl hne
        · exact hv2)]
    rw [List.foldl_cons]
    rw [show (env u).getD [] = val by simp [hval]]

/-- The chunk transformation substituting every variable with its value. -/
def substAllFun (env : List Char → Option (List Char)) : Chunk → Chunk :=
  fun c =>
    match c with
    | Chunk.var w => Chunk.lit ((env w).getD [])
    | Chunk.lit s => Chunk.lit s

theorem map_substAllFun_of_no_var (env : List Char → Option (List Char)) :
    ∀ (cs : List Chunk), (∀ w, Chunk.var w ∈ cs → False) →
      cs.map (substAllFun env) = cs := by
  intro cs
  induction cs with
  | nil => intro h; rfl
  | cons c rest ih =>
    intro h
    cases c with
    | lit s =>
      rw [List.map_cons]
      rw [ih (fun w hw => h w (by simp [hw]))]
      rfl
    | var w => exact absurd (by simp) (fun hx => h w hx)

theorem map_substAllFun_substStep (env : List Char → Option (List Char))
    (u : List Char) (cs : List Chunk) :
    (substStep u ((env u).getD []) cs).map (substAllFun env)
      = cs.map (substAllFun env) := by
  induction cs with
  | nil => rfl
  | cons c rest ih =>
    cases c with
    | lit s =>
      rw [show substStep u ((env u).getD []) (Chunk.lit s :: rest)
        = Chunk.lit s :: substStep u ((env u).getD []) rest from rfl]
      rw [List.map_cons, List.map_cons, ih]
    | var w =>
      by_cases hwu : w = u
      · rw [show substStep u ((env u).getD []) (Chunk.var w :: rest)
          = Chunk.lit ((env u).getD []) :: substStep u ((env u).getD []) rest by
            simp [substStep, hwu]]
        rw [List.map_cons, List.map_cons, ih]
        rw [hwu]
        rfl
      · rw [show substStep u ((env u).getD []) (Chunk.var w :: rest)
          = Chunk.var w :: substStep u ((env u).getD []) rest by
            simp [substStep, hwu]]
        rw [List.map_cons, List.map_cons, ih]

/-- Folding the chunk substitutions over all referenced names substitutes
every var chunk. -/
theorem foldl_substStep_eq_map (env : List Char → Option (List Char)) :
    ∀ (vars : List (List Char)) (cs : List Chunk),
      (∀ w, Chunk.var w ∈ cs → w ∈ vars) →
      vars.foldl (fun s u => substStep u ((env u).getD []) s) cs
        = cs.map (substAllFun env) := by
  intro vars
  induction vars with
  | nil =>
    intro cs hsub
    rw [List.foldl_nil]
    rw [map_substAllFun_of_no_var env cs (fun w hw => by simp at hsub; exact hsub w hw)]
  | cons u urest ih =>
    intro cs hsub
    rw [List.foldl_cons]
    rw [ih (substStep u ((env u).getD []) cs)
      (fun w hw => by
        obtain ⟨hmem, hne⟩ := substStep_var_mem u ((env u).getD []) w cs hw
        have hv2 := hsub w hmem
        simp at hv2
        rcases hv2 with rfl | hv2
        · exact absurd rfl hne
        · exact hv2)]
    rw [map_substAllFun_substStep]

/-- The single-pass spec substitution succeeds on chunk lists whose referenced
variables are all set, producing the rendered chunk-wise substitution. -/
theorem specSubstChunks_ok (env : List Char → Option (List Char)) :
    ∀ (cs : List Chunk), (∀ w, Chunk.var w ∈ cs → (env w).isSome) →
      specSubstChunks env cs = Except.ok (render (cs.map (substAllFun env))) := by
  intro cs
  induction cs with
  | nil => intro h; rfl
  | cons c rest ih =>
    intro h
    cases c with
    | lit s =>
      rw [show specSubstChunks env (Chunk.lit s :: rest)
        = (specSubstChunks env rest).map (fun r => s ++ r) from rfl]
      rw [ih (fun w hw => h w (by simp [hw]))]
      rw [List.map_cons, render_cons]
      rfl
    | var w =>
      obtain ⟨val, hval⟩ := Option.isSome_iff_exists.mp (h w (by simp))
      rw [show specSubstChunks env (Chunk.var w :: rest)
        = match env w with
          | none => Except.error w
          | some val => (specSubstChunks env rest).map (fun r => val ++ r) from rfl]
      rw [hval]
      rw [ih (fun x hx => h x (by simp [hx]))]
      rw [List.map_cons, render_cons]
      rw [show substAllFun env (Chunk.var w) = Chunk.lit ((env w).getD []) from rfl]
      rw [hval]
      rfl

/-- The sequential fold errors on the first unset referenced variable. -/
theorem foldlM_substOne_err (env : List Char → Option (List Char)) :
    ∀ (vars : List (List Char)) (acc v0 : List Char),
      vars.find? (fun u => (env u).isNone) = some v0 →
      vars.foldlM (substOne env) acc = Except.error v0 := by
  intro vars
  induction vars with
  | nil => intro acc v0 h; simp [List.find?] at h
  | cons u urest ih =>
    intro acc v0 h
    cases henv : env u with
    | none =>
      have hu : v0 = u := by
        simp [List.find?, henv] at h
        exact h.symm
      rw [List.foldlM_cons]
      rw [show substOne env acc u = Except.error u by simp [substOne, henv]]
      rw [hu]
      rfl
    | some val =>
      have hrest : urest.find? (fun u => (env u).isNone) = some v0 := by
        simpa [List.find?, henv] using h
      rw [List.foldlM_cons]
      rw [show substOne env acc u
        = Except.ok (replaceAll (varPat u) val acc) by simp [substOne, henv]]
      exact ih _ v0 hrest

/-- The spec substitution errors on the first unset referenced variable. -/
theorem specSubstChunks_err (env : List Char → Option (List Char)) :
    ∀ (cs : List Chunk) (v0 : List Char),
      (varsOf cs).find? (fun u => (env u).isNone) = some v0 →
      specSubstChunks env cs = Except.error v0 := by
  intro cs
  induction cs with
  | nil => intro v0 h; simp [varsOf_nil, List.find?] at h
  | cons c rest ih =>
    intro v0 h
    cases c with
    | lit s =>
      rw [varsOf_cons_lit] at h
      rw [show specSubstChunks env (Chunk.lit s :: rest)
        = (specSubstChunks env rest).map (fun r => s ++ r) from rfl]
      rw [ih v0 h]
      rfl
    | var w =>
      rw [varsOf_cons_var] at h
      cases henv : env w with
      | none =>
        have hw : v0 = w := by
          simp [List.find?, henv] at h
          exact h.symm
        rw [show specSubstChunks env (Chunk.var w :: rest)
          = match env w with
            | none => Except.error w
            | some val => (specSubstChunks env rest).map (fun r => val ++ r) from rfl]
        rw [henv, hw]
      | some val =>
        have hrest : (varsOf rest).find? (fun u => (env u).isNone) = some v0 := by
          simpa [List.find?, henv] using h
        rw [show specSubstChunks env (Chunk.var w :: rest)
          = match env w with
            | none => Except.error w
            | some val => (specSubstChunks env rest).map (fun r => val ++ r) from rfl]
        rw [henv]
        rw [ih v0 hrest]
        rfl

theorem find?_isNone_of_not_all (env : List Char → Option (List Char)) :
    ∀ (vars : List (List Char)), ¬(∀ u ∈ vars, (env u).isSome) →
      ∃ v0, vars.find? (fun u => (env u).isNone) = some v0 := by
  intro vars
  induction vars with
  | nil => intro h; exact absurd (by simp) h
  | cons u urest ih =>
    intro h
    cases henv : env u with
    | none => exact ⟨u, by simp [List.find?, henv]⟩
    | some val =>
      have hrest : ¬(∀ x ∈ urest, (env x).isSome) := by
        intro hall
        exact h (by
          intro x hx
          simp at hx
          rcases hx with rfl | hx
          · simp [henv]
          · exact hall x hx)
      obtain ⟨v0, hv0⟩ := ih hrest
      exact ⟨v0, by simp [List.find?, henv]; exact hv0⟩

/-- The sequential fold succeeds exactly when every referenced variable is
set. -/
theorem foldlM_substOne_isOk (env : List Char → Option (List Char)) :
    ∀ (vars : List (List Char)) (acc : List Char),
      (vars.foldlM (substOne env) acc).isOk
        = vars.all (fun u => (env u).isSome) := by
  intro vars
  induction vars with
  | nil => intro acc; rfl
  | cons u urest ih =>
    intro acc
    rw [List.foldlM_cons]
    cases henv : env u with
    | none =>
      rw [show substOne env acc u = Except.error u by simp [substOne, henv]]
      rw [show ((Except.error u : Except (List Char) (List Char))
          >>= fun init => urest.foldlM (substOne env) init)
        = (Except.error u : Except (List Char) (List Char)) from rfl]
      simp [henv, Except.isOk, Except.toBool]
    | some val =>
      rw [show substOne env acc u
        = Except.ok (replaceAll (varPat u) val acc) by simp [substOne, henv]]
      rw [show (Except.ok (replaceAll (varPat u) val acc)
          >>= fun acc2 => urest.foldlM (substOne env) acc2)
        = urest.foldlM (substOne env) (replaceAll (varPat u) val acc) from rfl]
      rw [ih]
      simp [henv]

theorem except_map_isOk {A B E : Type} (f : A → B) (e : Except E A) :
    (e.map f).isOk = e.isOk := by
  cases e <;> rfl

/-- C7 amended: parse_config hands the YAML parser the sequential substitution
of the file content and raises exactly when some referenced variable is unset;
when every dollar in the file begins a well-formed reference and no
environment value contains a dollar, the sequential substitution agrees with
the single-pass substitution of every reference by its value. -/
theorem parse_config_env_substitution {Y : Type} (load : List Char → Y)
    (env : List Char → Option (List Char)) (content : List Char)
    (h1 : noStrayDollar content = true)
    (h2 : ∀ u val, env u = some val → '$' ∉ val) :
    ((parse_config load env content).isOk
        = (findVars content).all (fun u => (env u).isSome))
    ∧ parse_config load env content = (spec_substitute env content).map load := by
  have hwflit : ∀ s, Chunk.lit s ∈ tokenize content → '$' ∉ s := by
    intro s hs
    have hall := List.all_eq_true.mp h1 _ hs
    exact of_decide_eq_true hall
  have hwfvar : ∀ w, Chunk.var w ∈ tokenize content →
      w ≠ [] ∧ ∀ c ∈ w, isWordChar c := fun w hw => tokenize_wf_eq content w hw
  have hmain : replace_env_vars env content = specSubstChunks env (tokenize content) := by
    by_cases hall : ∀ u ∈ findVars content, (env u).isSome
    · have hok := foldlM_substOne_ok env (findVars content) (tokenize content)
        ⟨hwflit, hwfvar⟩
        (fun u hu => ⟨hall u hu, (hwfvar u ((mem_varsOf _ u).mp hu)).2⟩)
        h2
        (fun w hw => (mem_varsOf _ w).mpr hw)
      rw [render_tokenize_eq content] at hok
      rw [show replace_env_vars env content
        = (findVars content).foldlM (substOne env) content from rfl]
      rw [hok]
      rw [foldl_substStep_eq_map env (findVars content) (tokenize content)
        (fun w hw => (mem_varsOf _ w).mpr hw)]
      rw [specSubstChunks_ok env (tokenize content)
        (fun w hw => hall w ((mem_varsOf _ w).mpr hw))]
    · obtain ⟨v0, hv0⟩ := find?_isNone_of_not_all env (findVars content) hall
      rw [show replace_env_vars env content
        = (findVars content).foldlM (substOne env) content from rfl]
      rw [foldlM_substOne_err env (findVars content) content v0 hv0]
      rw [specSubstChunks_err env (tokenize content) v0 hv0]
  constructor
  · rw [show parse_config load env content
      = (replace_env_vars env content).map load from rfl]
    rw [except_map_isOk]
    exact foldlM_substOne_isOk env (findVars content) content
  · rw [show parse_config load env content
      = (replace_env_vars env content).map load from rfl]
    rw [hmain]
    rfl

/-- A witness environment: X holds the digit 1, nothing else is set. -/
def envW : List Char → Option (List Char) := fun v =>
  if v = ['X'] then some ['1'] else none

/-- A witness content: the text a${X}b. -/
def contentW : List Char := 'a' :: varPat ['X'] ++ ['b']

/-- C7 amended witness: the substitution characterization evaluated on the
content a${X}b under the witness environment. -/
theorem parse_config_env_substitution_witness :
    ((parse_config (fun l => l) envW contentW).isOk
        = (findVars contentW).all (fun u => (envW u).isSome))
    ∧ parse_config (fun l => l) envW contentW
      = (spec_substitute envW contentW).map (fun l => l) :=
  parse_config_env_substitution (fun l => l) envW contentW (by decide)
    (by
      intro u val h
      by_cases hu : u = ['X']
      · rw [show envW u = some ['1'] by simp [envW, hu]] at h
        injection h with h2
        rw [← h2]
        decide
      · rw [show envW u = none by simp [envW, hu]] at h
        exact absurd h (by simp))

/-- The counterexample environment: A holds the text x${B}, B holds y. -/
def envCe : List Char → Option (List Char) := fun v =>
  if v = ['A'] then some ('x' :: varPat ['B'])
  else if v = ['B'] then some ['y'] else none

/-- The counterexample content: the two references ${A}${B}. -/
def contentCe : List Char := varPat ['A'] ++ varPat ['B']

/-- C7 counterexample: with A set to x${B} and B set to y, the code substitutes
sequentially and re-substitutes the value of A, producing xyy, while replacing
every occurrence of a reference by its environment value produces x${B}y; so
parse_config does not in general hand the YAML parser the single-pass
substitution of the file content. -/
theorem parse_config_counterexample :
    parse_config (fun l => l) envCe contentCe = Except.ok ['x', 'y', 'y']
    ∧ spec_substitute envCe contentCe = Except.ok ('x' :: varPat ['B'] ++ ['y'])
    ∧ (['x', 'y', 'y'] : List Char) ≠ 'x' :: varPat ['B'] ++ ['y'] := by
  exact ⟨rfl, rfl, by decide⟩

end SloGen
